import Mathlib

/-!
Verification of the workflow builder (`scripts/build_workflow.py`) and the
submission/polling client (`scripts/comfy_submit.py`) of the
qwen-image-macos repository, as a shallow embedding in Lean 4.

Machine strings are Lean `String`s; JSON documents are modelled by an
inductive `JVal`; the filesystem side effects of the poller (view requests,
directory creation, file writes) are recorded in an explicit `PollState`.
-/

namespace QwenImage

/-! ## JSON values (for envelope normalization and submit responses) -/

/-- A JSON value, as loaded by `json.load` / `resp.json()`. Numbers are
split into integers and rationals (Python floats are out of scope; the
code only routes numbers opaquely). -/
inductive JVal where
  | null
  | bool (b : Bool)
  | str (s : String)
  | int (n : Int)
  | num (q : Rat)
  | arr (xs : List JVal)
  | obj (fields : List (String × JVal))

/-- Python truthiness of a JSON value: `None`, `False`, `0`, `""`, `[]`,
`{}` are falsy, everything else truthy. -/
def truthy : JVal → Bool
  | .null => false
  | .bool b => b
  | .str s => !s.isEmpty
  | .int n => n != 0
  | .num q => q != 0
  | .arr xs => !xs.isEmpty
  | .obj fs => !fs.isEmpty

/-- `d.get(k)` on a JSON object (association list, first binding wins). -/
def jget (fields : List (String × JVal)) (k : String) : Option JVal :=
  (fields.find? (fun p => p.1 == k)).map Prod.snd

/-- Python `x or y` on optional JSON values (`None` = `none`): the left
operand wins exactly when it is present and truthy. -/
def py_or (a b : Option JVal) : Option JVal :=
  match a with
  | some v => if truthy v then some v else b
  | none => b

/-! ## build_workflow.py -/

/-- An input value of a graph node: a literal (string / int / float) or a
reference `[producingNodeId, outputSlotIndex]` to the output of another node. -/
inductive InVal where
  | litStr (s : String)
  | litInt (n : Int)
  | litNum (q : Rat)
  | ref (node : String) (slot : Nat)
deriving DecidableEq

/-- One node of the workflow graph: `{"class_type": ..., "inputs": {...}}`.
The inputs mapping is kept in insertion order. -/
structure WNode where
  class_type : String
  inputs : List (String × InVal)
deriving DecidableEq

/-- CPython `pathlib.PurePath.suffix` of a file name: the part from the
last dot on, provided the dot is neither the first nor the last
character; otherwise the empty string. -/
def path_suffix (name : String) : String :=
  let cs := name.data
  let after := (cs.reverse.takeWhile (fun c => c != '.')).reverse
  if after.length == cs.length then ""
  else
    let i := cs.length - after.length - 1
    if 0 < i && i < cs.length - 1 then String.mk (cs.drop i) else ""

/-- Kernel-computable decidability of the lexicographic string order (via
the underlying character lists), used by the sort in `pick_first`. -/
instance strDecLE : DecidableRel (fun a b : String => a ≤ b) :=
  fun a b => decidable_of_iff (a.toList ≤ b.toList) String.le_iff_toList_le.symm

/-- The list comprehension inside `pick_first`:
`[p.name for p in dirpath.iterdir() if p.is_file() and p.suffix in suffixes]`.
A directory is modelled as a list of entries (name, is regular file), in
the (arbitrary) filesystem enumeration order. -/
def matching_names (entries : List (String × Bool)) (suffixes : List String) :
    List String :=
  (entries.filter (fun p => p.2 && suffixes.contains (path_suffix p.1))).map Prod.fst

/-- `pick_first(dirpath, suffixes)`: `none` when the directory does not
exist (`dirpath = none`); otherwise the head of the sorted list of names
of regular files whose suffix is in `suffixes`. -/
def pick_first (dirpath : Option (List (String × Bool))) (suffixes : List String) :
    Option String :=
  match dirpath with
  | none => none
  | some entries =>
    let files := List.insertionSort (fun a b => a ≤ b) (matching_names entries suffixes)
    files.head?

/-- The node-id counter of `build_workflow.main`: `n()` increments `nid`
and returns its string form. -/
def next_id (nid : Nat) : Nat × String :=
  (nid + 1, toString (nid + 1))

/-- The negative-prompt argparse default: a single space character. -/
def default_negative : String := " "

/-- The graph construction of `build_workflow.main`: the ordered node mapping
(insertion order preserved, as in a Python dict) built from the three
resolved asset names, the prompts, the numeric parameters and the staged
image name. -/
def build_graph (unet_name vae_name clip_name prompt negative : String)
    (steps : Int) (cfg : Rat) (image_name : String) : List (String × WNode) :=
  let unet_node := "1"
  let (nid, vae_node) := next_id 1
  let (nid, clip_node) := next_id nid
  let (nid, pos_node) := next_id nid
  let (nid, neg_node) := next_id nid
  let (nid, load_img) := next_id nid
  let (nid, vae_encode) := next_id nid
  let (nid, ksampler) := next_id nid
  let (nid, vae_decode) := next_id nid
  let (_, save) := next_id nid
  [ (unet_node, ⟨"UnetLoaderGGUF", [("unet_name", .litStr unet_name)]⟩),
    (vae_node, ⟨"VAELoader", [("vae_name", .litStr vae_name)]⟩),
    (clip_node, ⟨"CLIPLoaderGGUF",
      [("clip_name", .litStr clip_name), ("type", .litStr "stable_diffusion")]⟩),
    (pos_node, ⟨"CLIPTextEncode",
      [("clip", .ref clip_node 0), ("text", .litStr prompt)]⟩),
    (neg_node, ⟨"CLIPTextEncode",
      [("clip", .ref clip_node 0), ("text", .litStr negative)]⟩),
    (load_img, ⟨"LoadImage", [("image", .litStr image_name)]⟩),
    (vae_encode, ⟨"VAEEncode",
      [("vae", .ref vae_node 0), ("image", .ref load_img 0)]⟩),
    (ksampler, ⟨"KSampler",
      [("model", .ref unet_node 0), ("seed", .litInt 42), ("steps", .litInt steps),
       ("cfg", .litNum cfg), ("sampler_name", .litStr "euler"),
       ("scheduler", .litStr "karras"), ("positive", .ref pos_node 0),
       ("negative", .ref neg_node 0), ("latent_image", .ref vae_encode 0)]⟩),
    (vae_decode, ⟨"VAEDecode",
      [("vae", .ref vae_node 0), ("samples", .ref ksampler 0)]⟩),
    (save, ⟨"SaveImage",
      [("images", .ref vae_decode 0), ("filename_prefix", .litStr "qwen_edit")]⟩) ]

/-- The node references appearing among the input values of a node. -/
def node_refs (nd : WNode) : List (String × Nat) :=
  nd.inputs.filterMap (fun p =>
    match p.2 with
    | .ref n s => some (n, s)
    | _ => none)

/-- The references of each node name only node ids constructed strictly earlier
in the list (`built` accumulates the ids already constructed). -/
def refs_before (built : List String) : List (String × WNode) → Bool
  | [] => true
  | (id, nd) :: rest =>
    (node_refs nd).all (fun r => built.contains r.1) && refs_before (id :: built) rest

/-- Every reference in the graph names a node id that is a key of the
graph. -/
def refs_present (g : List (String × WNode)) : Bool :=
  g.all (fun p => (node_refs p.2).all (fun r => (g.map Prod.fst).contains r.1))

/-! ## comfy_submit.py -/

/-- The submit response: HTTP status plus parsed JSON body (an object). -/
structure HttpResponse where
  status : Nat
  body : List (String × JVal)

/-- The job-id extraction of `submit_prompt`:
`data.get("prompt_id") or data.get("promptid")`. -/
def submit_extract (data : List (String × JVal)) : Option JVal :=
  py_or (jget data "prompt_id") (jget data "promptid")

/-- `submit_prompt` including `resp.raise_for_status()`: `requests` raises
`HTTPError` exactly for status codes 400-599 (`http.client` accepts status
lines 100-999, and codes outside 400-599 do not raise); otherwise the body
is parsed and the job id extracted. -/
def submit_prompt (resp : HttpResponse) : Except Nat (Option JVal) :=
  if 400 ≤ resp.status ∧ resp.status < 600 then .error resp.status
  else .ok (submit_extract resp.body)

/-- The post-submit check of `main`: `if not prompt_id: return 3`. Returns
`some 3` when the client exits with status 3, `none` when it proceeds. -/
def job_id_guard (jid : Option JVal) : Option Nat :=
  match jid with
  | none => some 3
  | some v => if truthy v then none else some 3

/-- The envelope normalization of `main`:
`if "prompt" not in payload: payload = {"prompt": payload}`. -/
def normalize_envelope (payload : List (String × JVal)) : List (String × JVal) :=
  if payload.any (fun p => p.1 == "prompt") then payload
  else [("prompt", .obj payload)]

/-- Serialization of the node mapping of a built graph into a JSON value, as
written by `build_workflow.main` (`{"prompt": nodes}` is
`graph_document`). -/
def inval_to_jval : InVal → JVal
  | .litStr s => .str s
  | .litInt n => .int n
  | .litNum q => .num q
  | .ref node slot => .arr [.str node, .int (Int.ofNat slot)]

/-- JSON form of one node. -/
def wnode_to_jval (nd : WNode) : JVal :=
  .obj [("class_type", .str nd.class_type),
        ("inputs", .obj (nd.inputs.map (fun p => (p.1, inval_to_jval p.2))))]

/-- JSON form of the node mapping. -/
def nodes_to_jval (g : List (String × WNode)) : JVal :=
  .obj (g.map (fun p => (p.1, wnode_to_jval p.2)))

/-- The document `{"prompt": nodes}` written by the builder. -/
def graph_document (g : List (String × WNode)) : List (String × JVal) :=
  [("prompt", nodes_to_jval g)]

/-- One artifact descriptor from the `images` list of a history entry; each of
the three view fields may be missing. -/
structure ImageInfo where
  filename : Option String
  subfolder : Option String
  type : Option String
deriving DecidableEq

/-- One history entry for the job: its `outputs` mapping (node id to the
optional `images` list of the output object of that node) and whether
`status.completed` is `True`. -/
structure JobEntry where
  outputs : List (String × Option (List ImageInfo))
  completed : Bool

/-- The history response of one poll cycle: an HTTP error, or a parsed body in
which the job entry is either absent/falsy (`none`) or present. -/
inductive HistoryResp where
  | httpError
  | ok (entry : Option JobEntry)

/-- Client-observable state accumulated by the polling loop: the seen
set (`seen_images`), the log of issued `/view` requests
(filename, subfolder, type) in order, the directories created, and the
file writes (most recent first). -/
structure PollState where
  seen : List String
  views : List (String × String × String)
  dirs : List String
  fs : List (String × List Nat)

/-- Initial client state: empty seen set, no requests, no writes. -/
def init_state : PollState := ⟨[], [], [], []⟩

/-- Reading a file back: the most recent write to the path wins. -/
def file_read (fs : List (String × List Nat)) (p : String) : Option (List Nat) :=
  (fs.find? (fun e => e.1 == p)).map Prod.snd

/-- `essential_view_keys = ("filename", "subfolder", "type")`. -/
def essential_view_keys : List String := ["filename", "subfolder", "type"]

/-- `k in info` for the three required keys. -/
def has_key (info : ImageInfo) : String → Bool
  | "filename" => info.filename.isSome
  | "subfolder" => info.subfolder.isSome
  | "type" => info.type.isSome
  | _ => false

/-- The fields of `essential_view_keys` missing from a descriptor, in key
order: `[k for k in essential_view_keys if k not in info]`. -/
def missing_keys (info : ImageInfo) : List String :=
  essential_view_keys.filter (fun k => !has_key info k)

/-- The seen-set key of a descriptor:
the subfolder, then a slash, then the filename, each field defaulting to
the empty string when absent (the f-string in `main`). -/
def img_key (img : ImageInfo) : String :=
  img.subfolder.getD "" ++ "/" ++ img.filename.getD ""

/-- `download_image(server, outdir, info)`: raise with the missing keys if
any of the three required fields is absent (before any request);
otherwise issue the view request parameterized by exactly the three
fields, create the output directory, and write the returned bytes to
`outdir/filename`. The view endpoint of the server is `view`. On success the
updated state and the output path are returned. -/
def download_image (view : String → String → String → List Nat) (outdir : String)
    (info : ImageInfo) (st : PollState) : Except (List String) (PollState × String) :=
  if missing_keys info ≠ [] then .error (missing_keys info)
  else
    let f := info.filename.getD ""
    let s := info.subfolder.getD ""
    let t := info.type.getD ""
    let content := view f s t
    let out_path := outdir ++ "/" ++ f
    .ok ({ st with
            views := st.views ++ [(f, s, t)],
            dirs := if st.dirs.contains outdir then st.dirs else outdir :: st.dirs,
            fs := (out_path, content) :: st.fs }, out_path)

/-- Result of processing the descriptors of one cycle: the state reached, the
`any_new` flag, and the uncaught `RuntimeError` payload if one was
raised. -/
structure ProcOut where
  st : PollState
  any_new : Bool
  err : Option (List String)

/-- The inner loop over the `images` list of one node output: skip descriptors
whose key is already seen, otherwise download and then add the key to the
seen set. -/
def process_images (view : String → String → String → List Nat) (outdir : String) :
    List ImageInfo → PollState → Bool → ProcOut
  | [], st, any_new => ⟨st, any_new, none⟩
  | img :: rest, st, any_new =>
    if st.seen.contains (img_key img) then process_images view outdir rest st any_new
    else
      match download_image view outdir img st with
      | .error m => ⟨st, any_new, some m⟩
      | .ok (st2, _) =>
        process_images view outdir rest { st2 with seen := img_key img :: st2.seen } true

/-- The loop over the `outputs` items of the entry
(`images = node_out.get("images") or []`). -/
def process_outputs (view : String → String → String → List Nat) (outdir : String) :
    List (String × Option (List ImageInfo)) → PollState → Bool → ProcOut
  | [], st, any_new => ⟨st, any_new, none⟩
  | (_, node_out) :: rest, st, any_new =>
    match process_images view outdir (node_out.getD []) st any_new with
    | ⟨st2, a2, some m⟩ => ⟨st2, a2, some m⟩
    | ⟨st2, a2, none⟩ => process_outputs view outdir rest st2 a2

/-- Exit of the polling loop: success (`return 0`), deadline timeout
(`return 4`), or an uncaught `RuntimeError` from `download_image`
(process dies with a traceback, exit status 1). -/
inductive PollResult where
  | success
  | timeout
  | fatal (missing : List String)
deriving DecidableEq

/-- The process exit status for each loop outcome. -/
def exit_code : PollResult → Nat
  | .success => 0
  | .timeout => 4
  | .fatal _ => 1

/-- The polling loop of `main`: each list element is the history response
of one cycle (the deadline allows exactly `resps.length` cycles; an
exhausted list is the deadline). An HTTP error or an absent entry sleeps
and retries; otherwise the cycle downloads the not-yet-seen artifacts and
returns success iff the entry reports completion. -/
def poll_loop (view : String → String → String → List Nat) (outdir : String) :
    List HistoryResp → PollState → PollResult × PollState
  | [], st => (.timeout, st)
  | .httpError :: rest, st => poll_loop view outdir rest st
  | .ok none :: rest, st => poll_loop view outdir rest st
  | .ok (some entry) :: rest, st =>
    match process_outputs view outdir entry.outputs st false with
    | ⟨st2, _, some m⟩ => (.fatal m, st2)
    | ⟨st2, _, none⟩ =>
      if entry.completed then (.success, st2)
      else poll_loop view outdir rest st2

/-- All descriptors reported by the outputs of an entry, in processing order. -/
def all_images (outputs : List (String × Option (List ImageInfo))) : List ImageInfo :=
  (outputs.map (fun p => p.2.getD [])).flatten

/-- The artifact key carried by one logged view request: the request was
issued for the descriptor whose subfolder/filename concatenation it
names. -/
def view_key (r : String × String × String) : String :=
  r.2.1 ++ "/" ++ r.1

/-- The state after a successful `download_image`: the view request is
logged, the output directory exists, and the bytes are written to
`outdir/filename` (the seen set is untouched; the caller updates it). -/
def dl_state (view : String → String → String → List Nat) (outdir : String)
    (info : ImageInfo) (st : PollState) : PollState :=
  { st with
      views := st.views ++
        [(info.filename.getD "", info.subfolder.getD "", info.type.getD "")],
      dirs := if st.dirs.contains outdir then st.dirs else outdir :: st.dirs,
      fs := (outdir ++ "/" ++ info.filename.getD "",
             view (info.filename.getD "") (info.subfolder.getD "")
               (info.type.getD "")) :: st.fs }

/-- Every descriptor reported by the entry carries all three required
view fields. -/
def entry_wf (e : JobEntry) : Bool :=
  e.outputs.all (fun p => (p.2.getD []).all (fun img => (missing_keys img).isEmpty))

/-- A cycle response that neither completes the job nor can raise: an
HTTP error, an absent entry, or an uncompleted entry whose descriptors
are all well formed. -/
def not_ready_or_incomplete : HistoryResp → Bool
  | .httpError => true
  | .ok none => true
  | .ok (some e) => entry_wf e && !e.completed

/-- Relation between the seen set, the view-request log and the file
writes maintained by the polling loop: the seen set is exactly the keys
of the issued view requests (newest first), no key is requested twice,
and each request produced exactly one file write. -/
def poll_inv (st : PollState) : Prop :=
  st.seen = (st.views.map view_key).reverse ∧
  (st.views.map view_key).Nodup ∧
  st.fs.length = st.views.length

/-- A concrete view endpoint for witnesses (the byte content is
irrelevant to the claims). -/
def view0 : String → String → String → List Nat := fun _ _ _ => []

/-- The history entry of the mock example in the spec: one image
`out.png` under node 9 in the outputs and `status.completed` true. -/
def entry42 : JobEntry :=
  ⟨[("9", some [⟨some "out.png", some "", some "output"⟩])], true⟩

/-- A well-formed but uncompleted history entry, for witnesses. -/
def entryNC : JobEntry := ⟨[("1", some [⟨some "f", some "s", some "o"⟩])], false⟩

/-! ## Theorems -/

/-! ### Helper lemmas about the polling loop -/

lemma download_image_err_eq (view : String → String → String → List Nat)
    (outdir : String) (img : ImageInfo) (st : PollState)
    (h : missing_keys img ≠ []) :
    download_image view outdir img st = .error (missing_keys img) := by
  simp [download_image, h]

lemma download_image_ok_eq (view : String → String → String → List Nat)
    (outdir : String) (img : ImageInfo) (st : PollState)
    (h : missing_keys img = []) :
    download_image view outdir img st =
      .ok (dl_state view outdir img st, outdir ++ "/" ++ img.filename.getD "") := by
  simp [download_image, h, dl_state]

lemma process_images_cons_seen (view : String → String → String → List Nat)
    (outdir : String) (img : ImageInfo) (rest : List ImageInfo) (st : PollState)
    (a : Bool) (h : st.seen.contains (img_key img) = true) :
    process_images view outdir (img :: rest) st a =
      process_images view outdir rest st a := by
  have h2 : img_key img ∈ st.seen := by simpa using h
  simp [process_images, h2]

lemma process_images_cons_err (view : String → String → String → List Nat)
    (outdir : String) (img : ImageInfo) (rest : List ImageInfo) (st : PollState)
    (a : Bool) (h : st.seen.contains (img_key img) = false)
    (hm : missing_keys img ≠ []) :
    process_images view outdir (img :: rest) st a =
      ⟨st, a, some (missing_keys img)⟩ := by
  have h2 : img_key img ∉ st.seen := by simpa using h
  simp [process_images, h2, download_image_err_eq view outdir img st hm]

lemma process_images_cons_ok (view : String → String → String → List Nat)
    (outdir : String) (img : ImageInfo) (rest : List ImageInfo) (st : PollState)
    (a : Bool) (h : st.seen.contains (img_key img) = false)
    (hm : missing_keys img = []) :
    process_images view outdir (img :: rest) st a =
      process_images view outdir rest
        { dl_state view outdir img st with seen := img_key img :: st.seen } true := by
  have h2 : img_key img ∉ st.seen := by simpa using h
  simp [process_images, h2, download_image_ok_eq view outdir img st hm, dl_state]

/-- C8: a successful builder run produces exactly the ten nodes in the
fixed order primary-model loader, decoder loader, text-encoder loader,
positive-prompt encoder, negative-prompt encoder, input-image loader,
image-to-latent encoder, sampler, latent-to-image decoder, output writer,
with consecutive string ids "1" through "10" assigned by the increasing
counter, and the negative prompt defaults to a single space character. -/
theorem build_graph_ten_nodes_fixed_order (u v c p n : String) (steps : Int)
    (cfg : Rat) (i : String) :
    (build_graph u v c p n steps cfg i).map Prod.fst =
      ["1", "2", "3", "4", "5", "6", "7", "8", "9", "10"] ∧
    (build_graph u v c p n steps cfg i).map Prod.fst =
      (List.range 10).map (fun k => toString (k + 1)) ∧
    (build_graph u v c p n steps cfg i).map (fun q => q.2.class_type) =
      ["UnetLoaderGGUF", "VAELoader", "CLIPLoaderGGUF", "CLIPTextEncode",
       "CLIPTextEncode", "LoadImage", "VAEEncode", "KSampler", "VAEDecode",
       "SaveImage"] ∧
    default_negative = " " ∧
    (build_graph u v c p default_negative steps cfg i).get? 4 =
      some ("5", ⟨"CLIPTextEncode",
        [("clip", .ref "3" 0), ("text", .litStr " ")]⟩) :=
  ⟨rfl, rfl, rfl, rfl, rfl⟩

/-- C9: every reference input `[producingNodeId, outputSlotIndex]` in a
built graph names a node id present as a key of the same graph, and the
producing node is constructed strictly before the consuming node. -/
theorem build_graph_refs_well_formed (u v c p n : String) (steps : Int)
    (cfg : Rat) (i : String) :
    refs_before [] (build_graph u v c p n steps cfg i) = true ∧
    refs_present (build_graph u v c p n steps cfg i) = true :=
  ⟨rfl, rfl⟩

/-- C6: `normalize_envelope` leaves a document already containing the
top-level "prompt" key unchanged and wraps any other document under that
key; it is idempotent; and the document `{"prompt": nodes}` produced by
the builder passes through with an equal node-mapping. -/
theorem normalize_envelope_wrap_idem_roundtrip (d : List (String × JVal))
    (u v c p n : String) (steps : Int) (cfg : Rat) (i : String) :
    (d.any (fun q => q.1 == "prompt") = true → normalize_envelope d = d) ∧
    (d.any (fun q => q.1 == "prompt") = false →
      normalize_envelope d = [("prompt", .obj d)]) ∧
    normalize_envelope (normalize_envelope d) = normalize_envelope d ∧
    normalize_envelope (graph_document (build_graph u v c p n steps cfg i)) =
      graph_document (build_graph u v c p n steps cfg i) ∧
    jget (normalize_envelope (graph_document (build_graph u v c p n steps cfg i)))
        "prompt" =
      some (nodes_to_jval (build_graph u v c p n steps cfg i)) := by
  refine ⟨?_, ?_, ?_, rfl, rfl⟩
  · intro h
    simp [normalize_envelope, h]
  · intro h
    simp [normalize_envelope, h]
  · by_cases h : d.any (fun q => q.1 == "prompt") = true
    · simp [normalize_envelope, h]
    · simp [normalize_envelope, h]

/-- Witness for C6 at concrete documents: an already-wrapped document
passes through and a raw node-mapping gets wrapped. -/
theorem normalize_envelope_wrap_idem_roundtrip_witness :
    normalize_envelope [("prompt", JVal.null)] = [("prompt", JVal.null)] ∧
    normalize_envelope [("x", JVal.null)] =
      [("prompt", JVal.obj [("x", JVal.null)])] :=
  ⟨(normalize_envelope_wrap_idem_roundtrip [("prompt", JVal.null)]
      "" "" "" "" "" 0 0 "").1 rfl,
   (normalize_envelope_wrap_idem_roundtrip [("x", JVal.null)]
      "" "" "" "" "" 0 0 "").2.1 rfl⟩

/-- C7: `pick_first` returns `none` when the directory is missing or no
file matches, and otherwise the lexicographic minimum among the names of
the immediate regular files whose extension is in the allowed set; the
result is invariant under permutation of the filesystem enumeration
order. -/
theorem pick_first_lexmin_deterministic (entries : List (String × Bool))
    (suffixes : List String) :
    pick_first none suffixes = none ∧
    (matching_names entries suffixes = [] →
      pick_first (some entries) suffixes = none) ∧
    (∀ m, pick_first (some entries) suffixes = some m →
      m ∈ matching_names entries suffixes ∧
      ∀ x ∈ matching_names entries suffixes, m ≤ x) ∧
    (∀ es2, entries.Perm es2 →
      pick_first (some entries) suffixes = pick_first (some es2) suffixes) := by
  refine ⟨rfl, ?_, ?_, ?_⟩
  · intro h
    simp [pick_first, h]
  · intro m hm
    simp only [pick_first] at hm
    have hperm := List.perm_insertionSort (fun a b : String => a ≤ b)
      (matching_names entries suffixes)
    have hsort := List.sorted_insertionSort (fun a b : String => a ≤ b)
      (matching_names entries suffixes)
    rcases hh : List.insertionSort (fun a b : String => a ≤ b)
        (matching_names entries suffixes) with _ | ⟨a, t⟩
    · rw [hh] at hm; simp at hm
    · rw [hh] at hm hperm hsort
      have ham : a = m := by simpa using hm
      rw [← ham]
      constructor
      · exact hperm.mem_iff.mp (List.mem_cons_self a t)
      · intro x hx
        have hx2 : x ∈ a :: t := hperm.mem_iff.mpr hx
        rcases List.mem_cons.mp hx2 with rfl | hx3
        · exact le_refl _
        · exact (List.sorted_cons.mp hsort).1 x hx3
  · intro es2 hp
    have hmm : (matching_names entries suffixes).Perm (matching_names es2 suffixes) :=
      (hp.filter _).map _
    have h1 := List.perm_insertionSort (fun a b : String => a ≤ b)
      (matching_names entries suffixes)
    have h2 := List.perm_insertionSort (fun a b : String => a ≤ b)
      (matching_names es2 suffixes)
    have heq : List.insertionSort (fun a b : String => a ≤ b)
        (matching_names entries suffixes) =
        List.insertionSort (fun a b : String => a ≤ b)
        (matching_names es2 suffixes) :=
      List.eq_of_perm_of_sorted ((h1.trans hmm).trans h2.symm)
        (List.sorted_insertionSort _ _) (List.sorted_insertionSort _ _)
    show (List.insertionSort (fun a b : String => a ≤ b)
        (matching_names entries suffixes)).head? =
      (List.insertionSort (fun a b : String => a ≤ b)
        (matching_names es2 suffixes)).head?
    rw [heq]

/-- Witness for C7: on a concrete directory listing, "a.gguf" is the
returned minimum, and swapping the enumeration order does not change the
result. -/
theorem pick_first_lexmin_deterministic_witness :
    ("a.gguf" ∈ matching_names
        [("b.gguf", true), ("a.gguf", true), ("c.txt", true)] [".gguf"] ∧
      ∀ x ∈ matching_names
        [("b.gguf", true), ("a.gguf", true), ("c.txt", true)] [".gguf"],
        "a.gguf" ≤ x) ∧
    pick_first (some [("b.gguf", true), ("a.gguf", true)]) [".gguf"] =
      pick_first (some [("a.gguf", true), ("b.gguf", true)]) [".gguf"] :=
  ⟨(pick_first_lexmin_deterministic
      [("b.gguf", true), ("a.gguf", true), ("c.txt", true)] [".gguf"]).2.2.1
      "a.gguf" (by decide),
   (pick_first_lexmin_deterministic
      [("b.gguf", true), ("a.gguf", true)] [".gguf"]).2.2.2
      [("a.gguf", true), ("b.gguf", true)] (by decide)⟩

lemma process_images_seen_mono (view : String → String → String → List Nat)
    (outdir : String) :
    ∀ (imgs : List ImageInfo) (st : PollState) (a : Bool) (k : String),
      k ∈ st.seen → k ∈ (process_images view outdir imgs st a).st.seen
  | [], _, _, _, hk => hk
  | img :: rest, st, a, k, hk => by
    by_cases hs : st.seen.contains (img_key img) = true
    · rw [process_images_cons_seen view outdir img rest st a hs]
      exact process_images_seen_mono view outdir rest st a k hk
    · have hs2 : st.seen.contains (img_key img) = false := by simpa using hs
      by_cases hm : missing_keys img = []
      · rw [process_images_cons_ok view outdir img rest st a hs2 hm]
        refine process_images_seen_mono view outdir rest _ true k ?_
        simp [dl_state]
        exact Or.inr hk
      · rw [process_images_cons_err view outdir img rest st a hs2 hm]
        exact hk

lemma process_images_covers (view : String → String → String → List Nat)
    (outdir : String) :
    ∀ (imgs : List ImageInfo) (st : PollState) (a : Bool),
      (process_images view outdir imgs st a).err = none →
      ∀ img ∈ imgs, img_key img ∈ (process_images view outdir imgs st a).st.seen
  | [], _, _ => by
    intro _ img hmem
    exact absurd hmem (List.not_mem_nil img)
  | img0 :: rest, st, a => by
    intro he img hmem
    by_cases hs : st.seen.contains (img_key img0) = true
    · rw [process_images_cons_seen view outdir img0 rest st a hs] at he ⊢
      rcases List.mem_cons.mp hmem with rfl | hr
      · have hk : img_key img ∈ st.seen := by simpa using hs
        exact process_images_seen_mono view outdir rest st a _ hk
      · exact process_images_covers view outdir rest st a he img hr
    · have hs2 : st.seen.contains (img_key img0) = false := by simpa using hs
      by_cases hm : missing_keys img0 = []
      · rw [process_images_cons_ok view outdir img0 rest st a hs2 hm] at he ⊢
        rcases List.mem_cons.mp hmem with rfl | hr
        · refine process_images_seen_mono view outdir rest _ true _ ?_
          simp
        · exact process_images_covers view outdir rest _ true he img hr
      · rw [process_images_cons_err view outdir img0 rest st a hs2 hm] at he
        simp at he

lemma process_outputs_cons_ok (view : String → String → String → List Nat)
    (outdir : String) (nid : String) (no : Option (List ImageInfo))
    (rest : List (String × Option (List ImageInfo))) (st st2 : PollState)
    (a a2 : Bool)
    (hpi : process_images view outdir (no.getD []) st a = ⟨st2, a2, none⟩) :
    process_outputs view outdir ((nid, no) :: rest) st a =
      process_outputs view outdir rest st2 a2 := by
  simp [process_outputs, hpi]

lemma process_outputs_cons_err (view : String → String → String → List Nat)
    (outdir : String) (nid : String) (no : Option (List ImageInfo))
    (rest : List (String × Option (List ImageInfo))) (st st2 : PollState)
    (a a2 : Bool) (m : List String)
    (hpi : process_images view outdir (no.getD []) st a = ⟨st2, a2, some m⟩) :
    process_outputs view outdir ((nid, no) :: rest) st a = ⟨st2, a2, some m⟩ := by
  simp [process_outputs, hpi]

lemma process_outputs_seen_mono (view : String → String → String → List Nat)
    (outdir : String) :
    ∀ (outs : List (String × Option (List ImageInfo))) (st : PollState) (a : Bool)
      (k : String),
      k ∈ st.seen → k ∈ (process_outputs view outdir outs st a).st.seen
  | [], _, _, _, hk => hk
  | (nid, no) :: rest, st, a, k, hk => by
    have hk2 := process_images_seen_mono view outdir (no.getD []) st a k hk
    rcases hpi : process_images view outdir (no.getD []) st a with ⟨st2, a2, err⟩
    rw [hpi] at hk2
    cases err with
    | some m =>
      rw [process_outputs_cons_err view outdir nid no rest st st2 a a2 m hpi]
      exact hk2
    | none =>
      rw [process_outputs_cons_ok view outdir nid no rest st st2 a a2 hpi]
      exact process_outputs_seen_mono view outdir rest st2 a2 k hk2

lemma process_outputs_covers (view : String → String → String → List Nat)
    (outdir : String) :
    ∀ (outs : List (String × Option (List ImageInfo))) (st : PollState) (a : Bool),
      (process_outputs view outdir outs st a).err = none →
      ∀ img ∈ all_images outs,
        img_key img ∈ (process_outputs view outdir outs st a).st.seen
  | [], _, _ => by
    intro _ img hmem
    simp [all_images] at hmem
  | (nid, no) :: rest, st, a => by
    intro he img hmem
    rcases hpi : process_images view outdir (no.getD []) st a with ⟨st2, a2, err⟩
    cases err with
    | some m =>
      rw [process_outputs_cons_err view outdir nid no rest st st2 a a2 m hpi] at he
      simp at he
    | none =>
      rw [process_outputs_cons_ok view outdir nid no rest st st2 a a2 hpi] at he ⊢
      have hmem2 : img ∈ no.getD [] ∨ img ∈ all_images rest := by
        simpa [all_images] using hmem
      rcases hmem2 with hl | hr
      · have hcv := process_images_covers view outdir (no.getD []) st a
          (by rw [hpi]) img hl
        rw [hpi] at hcv
        exact process_outputs_seen_mono view outdir rest st2 a2 _ hcv
      · exact process_outputs_covers view outdir rest st2 a2 he img hr

lemma poll_inv_dl (view : String → String → String → List Nat) (outdir : String)
    (img : ImageInfo) (st : PollState)
    (hs : st.seen.contains (img_key img) = false) (hinv : poll_inv st) :
    poll_inv { dl_state view outdir img st with seen := img_key img :: st.seen } := by
  obtain ⟨h1, h2, h3⟩ := hinv
  have hnot : img_key img ∉ st.seen := by simpa using hs
  have hnotv : img_key img ∉ st.views.map view_key := by
    rw [h1] at hnot
    simpa using hnot
  have hkeq : view_key (img.filename.getD "", img.subfolder.getD "", img.type.getD "") =
      img_key img := rfl
  refine ⟨?_, ?_, ?_⟩
  · simp [dl_state, hkeq, h1]
  · simp [dl_state, List.nodup_append, hkeq, h2]
    intro x y z hx heq
    exact hnotv (List.mem_map.mpr ⟨(x, y, z), hx, heq⟩)
  · simp [dl_state, h3]

lemma process_images_inv (view : String → String → String → List Nat)
    (outdir : String) :
    ∀ (imgs : List ImageInfo) (st : PollState) (a : Bool),
      poll_inv st → poll_inv (process_images view outdir imgs st a).st
  | [], _, _, hinv => hinv
  | img :: rest, st, a, hinv => by
    by_cases hs : st.seen.contains (img_key img) = true
    · rw [process_images_cons_seen view outdir img rest st a hs]
      exact process_images_inv view outdir rest st a hinv
    · have hs2 : st.seen.contains (img_key img) = false := by simpa using hs
      by_cases hm : missing_keys img = []
      · rw [process_images_cons_ok view outdir img rest st a hs2 hm]
        exact process_images_inv view outdir rest _ true
          (poll_inv_dl view outdir img st hs2 hinv)
      · rw [process_images_cons_err view outdir img rest st a hs2 hm]
        exact hinv

lemma process_outputs_inv (view : String → String → String → List Nat)
    (outdir : String) :
    ∀ (outs : List (String × Option (List ImageInfo))) (st : PollState) (a : Bool),
      poll_inv st → poll_inv (process_outputs view outdir outs st a).st
  | [], _, _, hinv => hinv
  | (nid, no) :: rest, st, a, hinv => by
    have h2 := process_images_inv view outdir (no.getD []) st a hinv
    rcases hpi : process_images view outdir (no.getD []) st a with ⟨st2, a2, err⟩
    rw [hpi] at h2
    cases err with
    | some m =>
      rw [process_outputs_cons_err view outdir nid no rest st st2 a a2 m hpi]
      exact h2
    | none =>
      rw [process_outputs_cons_ok view outdir nid no rest st st2 a a2 hpi]
      exact process_outputs_inv view outdir rest st2 a2 h2

lemma poll_loop_inv (view : String → String → String → List Nat)
    (outdir : String) :
    ∀ (resps : List HistoryResp) (st : PollState),
      poll_inv st → poll_inv (poll_loop view outdir resps st).2
  | [], _, hinv => hinv
  | .httpError :: rest, st, hinv => poll_loop_inv view outdir rest st hinv
  | .ok none :: rest, st, hinv => poll_loop_inv view outdir rest st hinv
  | .ok (some entry) :: rest, st, hinv => by
    have h2 := process_outputs_inv view outdir entry.outputs st false hinv
    rcases hpo : process_outputs view outdir entry.outputs st false with ⟨st2, a2, err⟩
    rw [hpo] at h2
    cases err with
    | some m =>
      simp only [poll_loop, hpo]
      exact h2
    | none =>
      simp only [poll_loop, hpo]
      by_cases hc : entry.completed
      · simp [hc]
        exact h2
      · simp [hc]
        exact poll_loop_inv view outdir rest st2 h2

lemma process_images_fs_suffix (view : String → String → String → List Nat)
    (outdir : String) :
    ∀ (imgs : List ImageInfo) (st : PollState) (a : Bool),
      st.fs.IsSuffix (process_images view outdir imgs st a).st.fs
  | [], st, _ => List.suffix_refl st.fs
  | img :: rest, st, a => by
    by_cases hs : st.seen.contains (img_key img) = true
    · rw [process_images_cons_seen view outdir img rest st a hs]
      exact process_images_fs_suffix view outdir rest st a
    · have hs2 : st.seen.contains (img_key img) = false := by simpa using hs
      by_cases hm : missing_keys img = []
      · rw [process_images_cons_ok view outdir img rest st a hs2 hm]
        refine List.IsSuffix.trans ?_
          (process_images_fs_suffix view outdir rest _ true)
        simp [dl_state]
      · rw [process_images_cons_err view outdir img rest st a hs2 hm]

lemma process_outputs_fs_suffix (view : String → String → String → List Nat)
    (outdir : String) :
    ∀ (outs : List (String × Option (List ImageInfo))) (st : PollState) (a : Bool),
      st.fs.IsSuffix (process_outputs view outdir outs st a).st.fs
  | [], st, _ => List.suffix_refl st.fs
  | (nid, no) :: rest, st, a => by
    have h1 := process_images_fs_suffix view outdir (no.getD []) st a
    rcases hpi : process_images view outdir (no.getD []) st a with ⟨st2, a2, err⟩
    rw [hpi] at h1
    cases err with
    | some m =>
      rw [process_outputs_cons_err view outdir nid no rest st st2 a a2 m hpi]
      exact h1
    | none =>
      rw [process_outputs_cons_ok view outdir nid no rest st st2 a a2 hpi]
      exact h1.trans (process_outputs_fs_suffix view outdir rest st2 a2)

lemma poll_loop_fs_suffix (view : String → String → String → List Nat)
    (outdir : String) :
    ∀ (resps : List HistoryResp) (st : PollState),
      st.fs.IsSuffix (poll_loop view outdir resps st).2.fs
  | [], st => List.suffix_refl st.fs
  | .httpError :: rest, st => poll_loop_fs_suffix view outdir rest st
  | .ok none :: rest, st => poll_loop_fs_suffix view outdir rest st
  | .ok (some entry) :: rest, st => by
    have h1 := process_outputs_fs_suffix view outdir entry.outputs st false
    rcases hpo : process_outputs view outdir entry.outputs st false with ⟨st2, a2, err⟩
    rw [hpo] at h1
    cases err with
    | some m =>
      simp only [poll_loop, hpo]
      exact h1
    | none =>
      simp only [poll_loop, hpo]
      by_cases hc : entry.completed
      · simpa [hc] using h1
      · simp [hc]
        exact h1.trans (poll_loop_fs_suffix view outdir rest st2)

lemma process_images_wf_err (view : String → String → String → List Nat)
    (outdir : String) :
    ∀ (imgs : List ImageInfo) (st : PollState) (a : Bool),
      (∀ img ∈ imgs, (missing_keys img).isEmpty = true) →
      (process_images view outdir imgs st a).err = none
  | [], _, _, _ => rfl
  | img :: rest, st, a, hwf => by
    have hm : missing_keys img = [] := by
      have hh := hwf img (List.mem_cons_self img rest)
      simpa [List.isEmpty_iff] using hh
    have hrest : ∀ i ∈ rest, (missing_keys i).isEmpty = true :=
      fun i hi => hwf i (List.mem_cons_of_mem img hi)
    by_cases hs : st.seen.contains (img_key img) = true
    · rw [process_images_cons_seen view outdir img rest st a hs]
      exact process_images_wf_err view outdir rest st a hrest
    · have hs2 : st.seen.contains (img_key img) = false := by simpa using hs
      rw [process_images_cons_ok view outdir img rest st a hs2 hm]
      exact process_images_wf_err view outdir rest _ true hrest

lemma process_outputs_wf_err (view : String → String → String → List Nat)
    (outdir : String) :
    ∀ (outs : List (String × Option (List ImageInfo))) (st : PollState) (a : Bool),
      outs.all (fun p => (p.2.getD []).all (fun img => (missing_keys img).isEmpty)) = true →
      (process_outputs view outdir outs st a).err = none
  | [], _, _, _ => rfl
  | (nid, no) :: rest, st, a, hwf => by
    rw [List.all_cons, Bool.and_eq_true] at hwf
    have himg : ∀ img ∈ no.getD [], (missing_keys img).isEmpty = true := by
      intro img hi
      exact List.all_eq_true.mp hwf.1 img hi
    have herr := process_images_wf_err view outdir (no.getD []) st a himg
    rcases hpi : process_images view outdir (no.getD []) st a with ⟨st2, a2, err⟩
    rw [hpi] at herr
    cases err with
    | some m => simp at herr
    | none =>
      rw [process_outputs_cons_ok view outdir nid no rest st st2 a a2 hpi]
      exact process_outputs_wf_err view outdir rest st2 a2 hwf.2

lemma poll_loop_timeout (view : String → String → String → List Nat)
    (outdir : String) :
    ∀ (resps : List HistoryResp) (st : PollState),
      (∀ r ∈ resps, not_ready_or_incomplete r = true) →
      (poll_loop view outdir resps st).1 = .timeout
  | [], _, _ => rfl
  | .httpError :: rest, st, h =>
    poll_loop_timeout view outdir rest st
      (fun r hr => h r (List.mem_cons_of_mem _ hr))
  | .ok none :: rest, st, h =>
    poll_loop_timeout view outdir rest st
      (fun r hr => h r (List.mem_cons_of_mem _ hr))
  | .ok (some entry) :: rest, st, h => by
    have hhead := h _ (List.mem_cons_self _ rest)
    rw [not_ready_or_incomplete, Bool.and_eq_true] at hhead
    have hwf : entry_wf entry = true := hhead.1
    have hnc : entry.completed = false := by
      have hh := hhead.2
      simpa using hh
    have herr := process_outputs_wf_err view outdir entry.outputs st false hwf
    rcases hpo : process_outputs view outdir entry.outputs st false with ⟨st2, a2, err⟩
    rw [hpo] at herr
    cases err with
    | some m => simp at herr
    | none =>
      simp only [poll_loop, hpo, hnc]
      simp
      exact poll_loop_timeout view outdir rest st2
        (fun r hr => h r (List.mem_cons_of_mem _ hr))

lemma slash_key_inj (s1 s2 f : String) (h : s1 ++ "/" ++ f = s2 ++ "/" ++ f) :
    s1 = s2 := by
  rw [String.ext_iff] at h ⊢
  simpa [String.data_append] using h

/-- C1: in any polling cycle whose history entry reports completion and
whose downloads raise no error, the client returns the success exit
status 0 at the end of that same cycle (whatever later responses would
have been), after the processing of the outputs of that cycle, which
leaves the key of every artifact reported in the cycle in the seen set
(downloading the not-yet-seen ones). -/
theorem poll_completion_success_same_cycle
    (view : String → String → String → List Nat) (outdir : String)
    (entry : JobEntry) (rest : List HistoryResp) (st : PollState)
    (hc : entry.completed = true)
    (he : (process_outputs view outdir entry.outputs st false).err = none) :
    poll_loop view outdir (.ok (some entry) :: rest) st =
      (.success, (process_outputs view outdir entry.outputs st false).st) ∧
    exit_code (poll_loop view outdir (.ok (some entry) :: rest) st).1 = 0 ∧
    ∀ img ∈ all_images entry.outputs,
      img_key img ∈ (process_outputs view outdir entry.outputs st false).st.seen := by
  have hcov := process_outputs_covers view outdir entry.outputs st false he
  rcases hpo : process_outputs view outdir entry.outputs st false with ⟨st2, a2, err⟩
  rw [hpo] at he
  obtain rfl : err = none := he
  rw [hpo] at hcov
  have h1 : poll_loop view outdir (.ok (some entry) :: rest) st = (.success, st2) := by
    simp [poll_loop, hpo, hc]
  exact ⟨h1, by rw [h1]; rfl, hcov⟩

/-- Witness for C1: the mock example of the spec, where the entry for the
job reports one artifact `out.png` and completion: the loop returns
success with `out.png` marked seen. -/
theorem poll_completion_success_same_cycle_witness :
    entry42.completed = true ∧
    poll_loop view0 "comfyui-outputs" [.ok (some entry42)] init_state =
      (.success,
       (process_outputs view0 "comfyui-outputs" entry42.outputs init_state false).st) ∧
    img_key ⟨some "out.png", some "", some "output"⟩ ∈
      (process_outputs view0 "comfyui-outputs" entry42.outputs init_state false).st.seen :=
  ⟨rfl,
   (poll_completion_success_same_cycle view0 "comfyui-outputs" entry42 []
      init_state rfl rfl).1,
   (poll_completion_success_same_cycle view0 "comfyui-outputs" entry42 []
      init_state rfl rfl).2.2 ⟨some "out.png", some "", some "output"⟩ (by decide)⟩

/-- C2: across any whole run starting from the empty seen set, the keys
of the issued view requests are pairwise distinct (a key already seen is
never requested or re-downloaded, even when the server repeats a
descriptor across cycles), the seen set is exactly the keys of the
downloads performed (newest first, each key added when its artifact is
downloaded), and each view request wrote exactly one file. -/
theorem poll_seen_key_never_redownloaded
    (view : String → String → String → List Nat) (outdir : String)
    (resps : List HistoryResp) :
    ((poll_loop view outdir resps init_state).2.views.map view_key).Nodup ∧
    (poll_loop view outdir resps init_state).2.seen =
      ((poll_loop view outdir resps init_state).2.views.map view_key).reverse ∧
    (poll_loop view outdir resps init_state).2.fs.length =
      (poll_loop view outdir resps init_state).2.views.length := by
  have h := poll_loop_inv view outdir resps init_state ⟨rfl, List.nodup_nil, rfl⟩
  exact ⟨h.2.1, h.1, h.2.2⟩

/-- C4: an HTTP error from the history endpoint and an absent job entry
both just continue with the next cycle (no state change, no fatal exit);
an exhausted deadline returns the timeout status 4 with the state as it
was; the file writes only grow during a run (downloads from earlier
cycles are preserved, never rolled back); and a run in which every cycle
is not-ready or well-formed-but-uncompleted times out. -/
theorem poll_not_ready_retry_timeout_preserves
    (view : String → String → String → List Nat) (outdir : String)
    (rest resps : List HistoryResp) (st : PollState) :
    poll_loop view outdir (.httpError :: rest) st = poll_loop view outdir rest st ∧
    poll_loop view outdir (.ok none :: rest) st = poll_loop view outdir rest st ∧
    poll_loop view outdir [] st = (.timeout, st) ∧
    exit_code .timeout = 4 ∧
    st.fs.IsSuffix (poll_loop view outdir resps st).2.fs ∧
    ((∀ r ∈ resps, not_ready_or_incomplete r = true) →
      (poll_loop view outdir resps st).1 = .timeout) :=
  ⟨rfl, rfl, rfl, rfl, poll_loop_fs_suffix view outdir resps st,
   poll_loop_timeout view outdir resps st⟩

/-- Witness for C4: a concrete run of an HTTP error, an absent entry and
an uncompleted entry times out. -/
theorem poll_not_ready_retry_timeout_preserves_witness :
    (∀ r ∈ [HistoryResp.httpError, HistoryResp.ok none,
        HistoryResp.ok (some entryNC)], not_ready_or_incomplete r = true) ∧
    (poll_loop view0 "comfyui-outputs"
      [HistoryResp.httpError, HistoryResp.ok none, HistoryResp.ok (some entryNC)]
      init_state).1 = .timeout :=
  ⟨by decide,
   (poll_not_ready_retry_timeout_preserves view0 "comfyui-outputs" []
      [HistoryResp.httpError, HistoryResp.ok none, HistoryResp.ok (some entryNC)]
      init_state).2.2.2.2.2 (by decide)⟩

/-- C5: a descriptor lacking required fields makes `download_image` fail
with exactly the missing fields in key order, and its processing raises
without issuing any view request or touching the state; a descriptor
with all three fields is fetched via a view request parameterized by
exactly (filename, subfolder, type), written to `outdir/filename` with
the directory created if needed (all recorded in `dl_state`), and its
key is then added to the seen set. -/
theorem download_image_contract
    (view : String → String → String → List Nat) (outdir : String)
    (img : ImageInfo) (st : PollState) (a : Bool) :
    (missing_keys img ≠ [] →
      download_image view outdir img st = .error (missing_keys img)) ∧
    (missing_keys img ≠ [] → st.seen.contains (img_key img) = false →
      process_images view outdir [img] st a = ⟨st, a, some (missing_keys img)⟩) ∧
    (missing_keys img = [] →
      download_image view outdir img st =
        .ok (dl_state view outdir img st, outdir ++ "/" ++ img.filename.getD "")) ∧
    (missing_keys img = [] → st.seen.contains (img_key img) = false →
      process_images view outdir [img] st a =
        ⟨{ dl_state view outdir img st with seen := img_key img :: st.seen },
         true, none⟩) := by
  refine ⟨?_, ?_, ?_, ?_⟩
  · intro hm
    exact download_image_err_eq view outdir img st hm
  · intro hm hs
    exact process_images_cons_err view outdir img [] st a hs hm
  · intro hm
    exact download_image_ok_eq view outdir img st hm
  · intro hm hs
    rw [process_images_cons_ok view outdir img [] st a hs hm]
    rfl

/-- Witness for C5: a descriptor missing filename and type fails naming
exactly those two fields; a complete descriptor is downloaded and its
key `s/f` enters the seen set. -/
theorem download_image_contract_witness :
    download_image view0 "comfyui-outputs" ⟨none, some "s", none⟩ init_state =
      .error ["filename", "type"] ∧
    process_images view0 "comfyui-outputs" [⟨some "f", some "s", some "o"⟩]
        init_state false =
      ⟨{ dl_state view0 "comfyui-outputs" ⟨some "f", some "s", some "o"⟩ init_state
          with seen := ["s/f"] }, true, none⟩ :=
  ⟨(download_image_contract view0 "comfyui-outputs" ⟨none, some "s", none⟩
      init_state false).1 (by decide),
   (download_image_contract view0 "comfyui-outputs" ⟨some "f", some "s", some "o"⟩
      init_state false).2.2.2 rfl rfl⟩

/-- C10: two well-formed descriptors with the same filename but different
subfolders have different seen-set keys, so both are downloaded (two view
requests), but the subfolder is ignored when forming the on-disk path, so
both are written to `outdir/filename` and the later download overwrites
the bytes of the earlier one. -/
theorem subfolder_ignored_same_path_overwrite
    (view : String → String → String → List Nat) (outdir f s1 s2 t1 t2 : String)
    (hne : s1 ≠ s2) :
    process_images view outdir
        [⟨some f, some s1, some t1⟩, ⟨some f, some s2, some t2⟩]
        init_state false =
      ⟨⟨[s2 ++ "/" ++ f, s1 ++ "/" ++ f],
        [(f, s1, t1), (f, s2, t2)],
        [outdir],
        [(outdir ++ "/" ++ f, view f s2 t2), (outdir ++ "/" ++ f, view f s1 t1)]⟩,
       true, none⟩ ∧
    s1 ++ "/" ++ f ≠ s2 ++ "/" ++ f ∧
    file_read [(outdir ++ "/" ++ f, view f s2 t2), (outdir ++ "/" ++ f, view f s1 t1)]
      (outdir ++ "/" ++ f) = some (view f s2 t2) := by
  have hkne : s1 ++ "/" ++ f ≠ s2 ++ "/" ++ f := fun h => hne (slash_key_inj s1 s2 f h)
  refine ⟨?_, hkne, ?_⟩
  · have h1 : (init_state.seen.contains
        (img_key (⟨some f, some s1, some t1⟩ : ImageInfo))) = false := rfl
    rw [process_images_cons_ok view outdir ⟨some f, some s1, some t1⟩
      [⟨some f, some s2, some t2⟩] init_state false h1 rfl]
    have h2 : (({ dl_state view outdir ⟨some f, some s1, some t1⟩ init_state with
        seen := img_key (⟨some f, some s1, some t1⟩ : ImageInfo) :: init_state.seen
          } : PollState).seen.contains
        (img_key (⟨some f, some s2, some t2⟩ : ImageInfo))) = false := by
      simp [dl_state, init_state, img_key]
      exact fun h => hkne h.symm
    rw [process_images_cons_ok view outdir ⟨some f, some s2, some t2⟩
      [] _ true h2 rfl]
    simp [process_images, dl_state, init_state, img_key]
  · simp [file_read]

/-- Witness for C10: with subfolders "a" and "b" and filename "f", both
descriptors are downloaded and the final content of the shared path is
that of the later download. -/
theorem subfolder_ignored_same_path_overwrite_witness :
    process_images view0 "comfyui-outputs"
        [⟨some "f", some "a", some "o"⟩, ⟨some "f", some "b", some "o"⟩]
        init_state false =
      ⟨⟨["b" ++ "/" ++ "f", "a" ++ "/" ++ "f"],
        [("f", "a", "o"), ("f", "b", "o")],
        ["comfyui-outputs"],
        [("comfyui-outputs" ++ "/" ++ "f", view0 "f" "b" "o"),
         ("comfyui-outputs" ++ "/" ++ "f", view0 "f" "a" "o")]⟩,
       true, none⟩ ∧
    file_read [("comfyui-outputs" ++ "/" ++ "f", view0 "f" "b" "o"),
        ("comfyui-outputs" ++ "/" ++ "f", view0 "f" "a" "o")]
      ("comfyui-outputs" ++ "/" ++ "f") = some (view0 "f" "b" "o") :=
  ⟨(subfolder_ignored_same_path_overwrite view0 "comfyui-outputs" "f" "a" "b"
      "o" "o" (by decide)).1,
   (subfolder_ignored_same_path_overwrite view0 "comfyui-outputs" "f" "a" "b"
      "o" "o" (by decide)).2.2⟩

/-- Counterexample to C3 as stated: the response
`{"prompt_id": "", "promptid": "x"}` has the first spelling present, yet
the extracted job id is "x", not the value "" of the first spelling
(Python `or` skips a present-but-falsy first field); and a non-2xx
status 304 with a valid body does not make the submission fail, because
`raise_for_status` only raises for statuses of 400 and above. -/
theorem submit_first_spelling_counterexample :
    submit_extract [("prompt_id", JVal.str ""), ("promptid", JVal.str "x")] =
      some (JVal.str "x") ∧
    jget [("prompt_id", JVal.str ""), ("promptid", JVal.str "x")] "prompt_id" =
      some (JVal.str "") ∧
    some (JVal.str "x") ≠ some (JVal.str "") ∧
    submit_prompt ⟨304, [("prompt_id", JVal.str "42")]⟩ =
      .ok (some (JVal.str "42")) := by
  refine ⟨rfl, rfl, ?_, rfl⟩
  simp

/-- C3 (amended): the job id is extracted by checking the two alternate
spellings in order, the first spelling winning whenever it is present
with a truthy value (a present-but-falsy or absent first field falls
through to the second spelling); an extraction that yields nothing or a
falsy value makes the client report failure to obtain a job id and exit
with status 3; and a response status in 400-599 (exactly the range
`raise_for_status` raises for, not every non-2xx status) makes the
submission fail with that status, while statuses below 400 and of 600 or
above proceed to extraction. -/
theorem submit_truthy_first_match (data : List (String × JVal))
    (resp : HttpResponse) (v : JVal) :
    (jget data "prompt_id" = some v → truthy v = true →
      submit_extract data = some v) ∧
    (jget data "prompt_id" = none →
      submit_extract data = jget data "promptid") ∧
    (jget data "prompt_id" = some v → truthy v = false →
      submit_extract data = jget data "promptid") ∧
    (submit_extract data = none → job_id_guard (submit_extract data) = some 3) ∧
    (submit_extract data = some v → truthy v = false →
      job_id_guard (submit_extract data) = some 3) ∧
    (400 ≤ resp.status → resp.status < 600 →
      submit_prompt resp = .error resp.status) ∧
    (resp.status < 400 →
      submit_prompt resp = .ok (submit_extract resp.body)) ∧
    (600 ≤ resp.status →
      submit_prompt resp = .ok (submit_extract resp.body)) := by
  refine ⟨?_, ?_, ?_, ?_, ?_, ?_, ?_, ?_⟩
  · intro h ht
    simp [submit_extract, py_or, h, ht]
  · intro h
    simp [submit_extract, py_or, h]
  · intro h ht
    simp [submit_extract, py_or, h, ht]
  · intro h
    simp [job_id_guard, h]
  · intro h ht
    simp [job_id_guard, h, ht]
  · intro h1 h2
    simp [submit_prompt, h1, h2]
  · intro h
    have h2 : ¬ (400 ≤ resp.status ∧ resp.status < 600) := by omega
    simp [submit_prompt, h2]
  · intro h
    have h2 : ¬ (400 ≤ resp.status ∧ resp.status < 600) := by omega
    simp [submit_prompt, h2]

/-- Witness for the amended C3: `{"prompt_id": "42"}` yields job id "42",
a 500 response fails with status 500, and a 600 response does not fail
but proceeds to extraction. -/
theorem submit_truthy_first_match_witness :
    submit_extract [("prompt_id", JVal.str "42")] = some (JVal.str "42") ∧
    submit_prompt ⟨500, []⟩ = .error 500 ∧
    submit_prompt ⟨600, [("prompt_id", JVal.str "42")]⟩ =
      .ok (submit_extract [("prompt_id", JVal.str "42")]) :=
  ⟨(submit_truthy_first_match [("prompt_id", JVal.str "42")] ⟨500, []⟩
      (JVal.str "42")).1 rfl rfl,
   (submit_truthy_first_match [("prompt_id", JVal.str "42")] ⟨500, []⟩
      (JVal.str "42")).2.2.2.2.2.1 (by decide) (by decide),
   (submit_truthy_first_match [("prompt_id", JVal.str "42")]
      ⟨600, [("prompt_id", JVal.str "42")]⟩
      (JVal.str "42")).2.2.2.2.2.2.2 (by decide)⟩

end QwenImage
